import Mathlib

/-!
Verification development for the inboxid mail client.

The definitions below are shallow embeddings of the Rust sources:

* inboxid-lib/src/lib.rs   : MaildirID packing, store_i64 / load_i64,
  gen_id, fallback_mid, EasyMail pseudo mails and flag queries;
* inboxid-fetch/src/main.rs: the incremental fetcher fetch_inbox_top;
* inboxid-sync/src/lib.rs  : the sync planner compute_sync_actions;
* inboxid-browse/src/main.rs: the thread graph builder and the
  depth-first rendering walk of show_listing.

Machine integers are modelled as Nat (unsigned) and Int (signed) with
explicit reductions modulo powers of two where the Rust code casts or
may wrap.  Fallible operations return Option.
-/

namespace Inboxid

/-! ## Bit packing: store_i64 / load_i64 (inboxid-lib/src/lib.rs) -/

/-- Model of store_i64: bit-preserving reinterpretation of a u64 value
as an i64 (two's complement). -/
def store_i64 (x : Nat) : Int :=
  if x < 2 ^ 63 then (x : Int) else (x : Int) - 2 ^ 64

/-- Model of load_i64: bit-preserving reinterpretation of an i64 value
as a u64 (two's complement). -/
def load_i64 (x : Int) : Nat :=
  (x % 2 ^ 64).toNat

/-! ## MaildirID (inboxid-lib/src/lib.rs) -/

/-- A Maildir identifier: pair of IMAP UIDVALIDITY and UID.  Both fields
are u32 in the source; here Nat with bounds carried in the theorems. -/
structure MaildirID where
  uid_validity : Nat
  uid : Nat
deriving DecidableEq, Repr

/-- MaildirID::new. -/
def MaildirID.new (uid_validity uid : Nat) : MaildirID :=
  { uid_validity := uid_validity, uid := uid }

/-- MaildirID::to_u64: (uid_validity as u64) shifted left 32, or-ed with uid. -/
def MaildirID.to_u64 (id : MaildirID) : Nat :=
  (id.uid_validity <<< 32) ||| id.uid

/-- MaildirID::to_i64 = store_i64 of to_u64. -/
def MaildirID.to_i64 (id : MaildirID) : Int :=
  store_i64 id.to_u64

/-- From i64 for MaildirID: load_i64, then high 32 bits and low 32 bits,
the latter via the u64 computation (x shifted left 32) shifted right 32. -/
def MaildirID.fromI64 (x : Int) : MaildirID :=
  let n := load_i64 x
  MaildirID.new (n >>> 32) (((n <<< 32) % 2 ^ 64) >>> 32)

/-- gen_id: the on-disk name "{uid_validity}_{uid}". -/
def gen_id (uid_validity uid : Nat) : String :=
  toString uid_validity ++ "_" ++ toString uid

/-- fallback_mid: synthesized Message-ID for mails without one. -/
def fallback_mid (mailbox : String) (id : MaildirID) : String :=
  "<" ++ mailbox ++ "_" ++ toString id.uid_validity ++ "_" ++ toString id.uid
    ++ "@no-message-id>"

/-- Model of Rust str::contains(char), via the character list of the
string (same semantics, kernel-reducible). -/
def str_contains (s : String) (c : Char) : Bool :=
  s.data.contains c

/-- Model of Rust str::ends_with(str), via the character lists. -/
def str_ends_with (s suffix : String) : Bool :=
  suffix.data.isSuffixOf s.data

/-! ## IMAP flags and EasyMail flag queries (inboxid-lib/src/lib.rs) -/

/-- The imap crate's Flag type, as used by the core. -/
inductive IFlag where
  | Seen
  | Answered
  | Flagged
  | Deleted
  | Draft
  | Recent
  | MayCreate
  | Custom (s : String)
deriving DecidableEq, Repr

/-- imap_flag_to_maildir: IMAP flag to Maildir flag character. -/
def imap_flag_to_maildir : IFlag → Option Char
  | .Seen => some 'S'
  | .Answered => some 'R'
  | .Flagged => some 'F'
  | .Deleted => some 'T'
  | _ => none

/-- The fields of EasyMail that the flag and threading logic reads.
isPseudo models mail.is_none(). -/
structure EasyMail where
  isPseudo : Bool
  id : MaildirID
  flags : String
  subject : String
  date : Nat
deriving DecidableEq, Repr

/-- EasyMail::new_pseudo: pseudo mail with flag string "S", id (0,0),
epoch-zero date and the referenced id as subject. -/
def EasyMail.new_pseudo (subject : String) : EasyMail :=
  { isPseudo := true
    id := MaildirID.new 0 0
    flags := "S"
    subject := subject
    date := 0 }

/-- EasyMail::has_flag.  The source unwraps imap_flag_to_maildir, which
panics for unmapped flags; that partiality is modelled by Option. -/
def EasyMail.has_flag (m : EasyMail) (f : IFlag) : Option Bool :=
  (imap_flag_to_maildir f).map (fun c => str_contains m.flags c)

/-- EasyMail::has_flag2: direct flag character lookup. -/
def EasyMail.has_flag2 (m : EasyMail) (f : Char) : Bool :=
  str_contains m.flags f

/-! ## Incremental fetcher (inboxid-fetch/src/main.rs, fetch_inbox_top) -/

/-- Model of Rust u32::from_str via the character list: optional leading
plus sign, then ascii digits only, value below 2 to the 32. -/
def parse_u32 (s : String) : Option Nat :=
  let cs := s.data
  let cs := if cs.head? = some '+' then cs.tail else cs
  if cs.length ≠ 0 && cs.all Char.isDigit then
    let n := cs.foldl (fun a c => a * 10 + (c.toNat - 48)) 0
    if n < 2 ^ 32 then some n else none
  else none

/-- Model of Rust str::trim via the character list. -/
def str_trim (s : String) : String :=
  ⟨((s.data.dropWhile Char.isWhitespace).reverse.dropWhile Char.isWhitespace).reverse⟩

/-- Model of Rust splitn(2, comma): at most two fields, split at the
first comma. -/
def splitn2_comma (s : String) : List String :=
  match s.splitOn "," with
  | [] => [s]
  | [a] => [a]
  | a :: rest => [a, String.intercalate "," rest]

/-- Parsing of the .uid watermark file (fetch_inbox_top lines 45-53):
a missing file or an unparsable component defaults to 0. -/
def parse_uid_file (file : Option String) : Nat × Nat :=
  match file with
  | none => (0, 0)
  | some x =>
    let fields := splitn2_comma x
    let uid_validity := ((fields[0]?).map (fun f => parse_u32 (str_trim f))).getD none |>.getD 0
    let uid_last := ((fields[1]?).map (fun f => parse_u32 (str_trim f))).getD none |>.getD 0
    (uid_validity, uid_last)

/-- The fetch range decision: full refetch from 1, incremental from a
start UID, or nothing to do.  range k renders as "k:*". -/
inductive FetchRange where
  | range (startUid : Nat)
  | noNewMail
deriving DecidableEq, Repr

/-- Render of the fetch range string sent to the server. -/
def FetchRange.render : FetchRange → Option String
  | .range s => some (toString s ++ ":*")
  | .noNewMail => none

/-- fetch_inbox_top lines 54-64: the fetch range choice.  prev_uid + 1
is a u32 addition, reduced modulo 2 to the 32. -/
def choose_fetch_range (uid_validity uid_next : Nat) (file : Option String) :
    FetchRange :=
  let p := parse_uid_file file
  if uid_validity ≠ p.1 then .range 1
  else if uid_next ≠ (p.2 + 1) % 2 ^ 32 then .range ((p.2 + 1) % 2 ^ 32)
  else .noNewMail

/-- A message held by the server: its UID, raw body, and the joined
Message-ID header values that parse_headers extracts from the body
(the MIME parser is an external crate, abstracted as this field). -/
structure Msg where
  uid : Nat
  body : String
  messageId : String
deriving DecidableEq, Repr

/-- The EXAMINE result and message list of the selected mailbox. -/
structure ServerBox where
  uidValidity : Nat
  uidNext : Nat
  msgs : List Msg
deriving DecidableEq, Repr

/-- The on-disk Maildir state the fetcher touches: stored message files
(id to contents) and the .uid ancillary file. -/
structure MaildirSt where
  files : List (String × String)
  uidFile : Option String
deriving DecidableEq, Repr

/-- One row of the fetcher's INSERT INTO mail VALUES (?,?,?): it
supplies only mailbox, uid and message_id. -/
structure FetchRow where
  mailbox : String
  uid : Int
  message_id : String
deriving DecidableEq, Repr

/-- Column count of the mail table created by get_db in
inboxid-lib/src/lib.rs: mailbox, uid, message_id, flags. -/
def get_db_mail_columns : Nat := 4

/-- Number of values in the fetcher's INSERT INTO mail VALUES (?,?,?). -/
def fetch_insert_values : Nat := 3

/-- Result of a fetch run: error (if any), final Maildir state, final
mail table, and whether LOGOUT was reached. -/
structure FetchResult where
  errorMsg : Option String
  maildir : MaildirSt
  table : List FetchRow
  loggedOut : Bool
deriving DecidableEq, Repr

/-- A file with the given id is present in a file list. -/
def file_exists (files : List (String × String)) (id : String) : Bool :=
  files.any (fun f => f.1 == id)

/-- maildir.exists(id): a file with this id is present. -/
def mailbox_exists (md : MaildirSt) (id : String) : Bool :=
  file_exists md.files id

/-- The per-message loop of fetch_inbox_top (lines 72-86): track
largest_uid, store new messages, insert index rows.  storeFail models
an I/O failure of store_new_with_id for the given UID. -/
def fetch_store_loop (mailbox : String) (uid_validity : Nat)
    (storeFail : Nat → Bool) :
    List Msg → Nat → MaildirSt → List FetchRow →
    Option String × Nat × MaildirSt × List FetchRow
  | [], largest, md, table => (none, largest, md, table)
  | m :: rest, largest, md, table =>
    let largest := max largest m.uid
    let id := gen_id uid_validity m.uid
    let packed : Nat := ((uid_validity <<< 32) ||| m.uid) % 2 ^ 64
    if mailbox_exists md id then
      fetch_store_loop mailbox uid_validity storeFail rest largest md table
    else if storeFail m.uid then
      (some "storage error", largest, md, table)
    else
      fetch_store_loop mailbox uid_validity storeFail rest largest
        { md with files := md.files ++ [(id, m.body)] }
        (table ++ [⟨mailbox, store_i64 packed, m.messageId⟩])

/-- The messages a run fetches: those with UID at or above the range
start (empty when there is nothing to do). -/
def fetched_msgs (server : ServerBox) (md : MaildirSt) : List Msg :=
  match choose_fetch_range server.uidValidity server.uidNext md.uidFile with
  | .range start => server.msgs.filter (fun m => start ≤ m.uid)
  | .noNewMail => []

/-- fetch_inbox_top: examine, read .uid, choose range, fetch, prepare
the three-value INSERT against a table of dbCols columns (SQLite
rejects the statement when the counts differ), store each new message,
then persist the watermark.  Errors abort before the watermark write. -/
def fetch_inbox_top (mailbox : String) (server : ServerBox) (md : MaildirSt)
    (table : List FetchRow) (dbCols : Nat) (storeFail : Nat → Bool) :
    FetchResult :=
  let uid_validity := server.uidValidity
  let uid_next := server.uidNext
  match choose_fetch_range uid_validity uid_next md.uidFile with
  | .noNewMail => { errorMsg := none, maildir := md, table := table, loggedOut := true }
  | .range start =>
    let p := parse_uid_file md.uidFile
    let messages := server.msgs.filter (fun m => start ≤ m.uid)
    if dbCols ≠ fetch_insert_values then
      { errorMsg := some "INSERT value count does not match mail table column count"
        maildir := md, table := table, loggedOut := false }
    else
      match fetch_store_loop mailbox uid_validity storeFail messages p.2 md table with
      | (some e, _, md1, table1) =>
        { errorMsg := some e, maildir := md1, table := table1, loggedOut := false }
      | (none, largest, md1, table1) =>
        let u := max ((uid_next + (2 ^ 32 - 1)) % 2 ^ 32) largest
        { errorMsg := none
          maildir := { md1 with uidFile := some (toString uid_validity ++ "," ++ toString u) }
          table := table1
          loggedOut := true }

/-! ## Sync planner (inboxid-sync/src/lib.rs, compute_sync_actions) -/

/-- The planner's action type (SyncAction in the source). -/
inductive SyncAction where
  | TrashRemote (mailbox : String) (id : MaildirID)
  | TrashLocal (mailbox : String) (id : MaildirID)
  | DeleteRemote (mailbox : String) (id : MaildirID)
  | DeleteLocal (mailbox : String) (id : MaildirID)
  | UpdateFlags (mailbox : String) (entries : List (MaildirID × List IFlag × String))
  | Hardlink (mailbox : String) (entries : List (MaildirID × String × List IFlag))
  | Fetch (mailbox : String) (ids : List MaildirID)
  | RemoveStale (stale : List (String × List (Nat × Nat × Nat)))
deriving DecidableEq, Repr

/-- A row of the mail table (mailbox, uid stored as i64, message_id,
flags). -/
structure Row where
  mailbox : String
  uid : Int
  message_id : String
  flags : String
deriving DecidableEq, Repr

/-- The mail table of the index, as a row list. -/
abbrev Table := List Row

/-- SELECT mailbox, uid, flags FROM mail WHERE message_id = ?, with the
uid column decoded into a MaildirID as the planner's query map does. -/
def have_mail (t : Table) (mid : String) : List (String × MaildirID × String) :=
  (t.filter (fun r => r.message_id == mid)).map
    (fun r => (r.mailbox, MaildirID.fromI64 r.uid, r.flags))

/-- DELETE FROM mail WHERE mailbox = ? AND uid = ? (uid bound via
MaildirID::to_sql, i.e. to_i64). -/
def delete_mail (t : Table) (mailbox : String) (id : MaildirID) : Table :=
  t.filter (fun r => !(r.mailbox == mailbox && r.uid == id.to_i64))

/-- SELECT uid, message_id, flags FROM mail WHERE mailbox = ?. -/
def all_mail (t : Table) (mailbox : String) : List (Int × String × String) :=
  (t.filter (fun r => r.mailbox == mailbox)).map
    (fun r => (r.uid, r.message_id, r.flags))

/-- INSERT INTO mail VALUES (?,?,?,?). -/
def save_mail (t : Table) (mailbox : String) (uid : Int) (mid flags : String) :
    Table :=
  t ++ [⟨mailbox, uid, mid, flags⟩]

/-- One remote message as recorded in the planner's remote map:
(uid_validity, uid, MaildirID, flags). -/
structure RemoteEntry where
  uid1 : Nat
  uid2 : Nat
  full : MaildirID
  rflags : List IFlag
deriving DecidableEq, Repr

/-- One listed mailbox: its name, whether its LIST attributes contain
the custom Trash marker, and its remote map (message id to entry) in
iteration order. -/
structure MailboxIn where
  name : String
  isTrash : Bool
  remote : List (String × RemoteEntry)
deriving DecidableEq, Repr

/-- The planner's input: the LIST result and the user-selected mailbox
names (empty means all). -/
structure PlanIn where
  names : List MailboxIn
  selected : List String
deriving DecidableEq, Repr

/-- trash_dir: the first listed folder carrying the Trash attribute. -/
def trash_dir (inp : PlanIn) : Option String :=
  ((inp.names.filter (fun n => n.isTrash)).head?).map (fun n => n.name)

/-- The planner's running state: emitted actions, the transaction's
working table, the one-shot trash warning flag, the number of trash
warnings actually printed, and the accumulated RemoveStale map. -/
structure PlanSt where
  actions : List SyncAction
  tx : Table
  printedTrashWarning : Bool
  trashWarnings : Nat
  toRemove : List (String × List (Nat × Nat × Nat))
deriving DecidableEq, Repr

/-- compute_sync_actions lines 132-157: processing of one local index
row (uid, message id, flags) of the current mailbox. -/
def step_local (mailbox : String) (isTrash : Bool) (trashDir : Option String)
    (remoteKeys : List String) (st : PlanSt) (row : Int × String × String) :
    PlanSt :=
  let uid := MaildirID.fromI64 row.1
  let mid := row.2.1
  let flags := row.2.2
  if str_contains flags 'T' && !isTrash then
    match trashDir with
    | some _ =>
      { st with
        actions := st.actions ++
          [if remoteKeys.contains mid then SyncAction.TrashRemote mailbox uid
           else SyncAction.TrashLocal mailbox uid]
        tx := delete_mail st.tx mailbox uid }
    | none =>
      if !st.printedTrashWarning then
        { st with printedTrashWarning := true, trashWarnings := st.trashWarnings + 1 }
      else st
  else if str_contains flags 'E' then
    { st with
      actions := st.actions ++
        [if remoteKeys.contains mid then SyncAction.DeleteRemote mailbox uid
         else SyncAction.DeleteLocal mailbox uid]
      tx := delete_mail st.tx mailbox uid }
  else st

/-- Accumulator of the remote-message loop: planner state plus the
to_flag, to_hardlink and to_fetch vectors. -/
structure RemoteSt where
  st : PlanSt
  toFlag : List (MaildirID × List IFlag × String)
  toHardlink : List (MaildirID × String × List IFlag)
  toFetch : List MaildirID
deriving DecidableEq, Repr

/-- compute_sync_actions lines 162-180: processing of one remote
message.  An exact (mailbox, uid) match with the same message id goes
to to_flag; any other local row with the id goes to to_hardlink with an
in-transaction insert; otherwise, outside the trash, to to_fetch. -/
def step_remote (mailbox : String) (isTrash : Bool) (acc : RemoteSt)
    (entry : String × RemoteEntry) : RemoteSt :=
  let mid := entry.1
  let e := entry.2
  let localRows := have_mail acc.st.tx mid
  match localRows.find? (fun x => x.1 == mailbox && x.2.1 == e.full) with
  | some x => { acc with toFlag := acc.toFlag ++ [(x.2.1, e.rflags, x.2.2)] }
  | none =>
    match localRows with
    | [] =>
      if !isTrash then
        { acc with toFetch := acc.toFetch ++ [MaildirID.new e.uid1 e.uid2] }
      else acc
    | x :: _ =>
      let newUid := MaildirID.new e.uid1 e.uid2
      { acc with
        st := { acc.st with tx := save_mail acc.st.tx mailbox newUid.to_i64 mid x.2.2 }
        toHardlink := acc.toHardlink ++ [(newUid, mid, e.rflags)] }

/-- compute_sync_actions lines 191-201: the stale rows of a mailbox,
whose message id has no remote match and is not a synthesized no-id. -/
def stale_rows (t : Table) (mailbox : String) (remoteKeys : List String) :
    List (Nat × Nat × Nat) :=
  (all_mail t mailbox).filterMap (fun r =>
    let uid := load_i64 r.1
    let uid1 := uid >>> 32
    let uid2 := ((uid <<< 32) % 2 ^ 64) >>> 32
    let mid := r.2.1
    if !remoteKeys.contains mid && !str_ends_with mid "@no-message-id>" then
      some (uid1, uid2, uid)
    else none)

/-- compute_sync_actions lines 121-205: the whole per-mailbox pass. -/
def plan_mailbox (selected : List String) (trashDir : Option String)
    (st : PlanSt) (mb : MailboxIn) : PlanSt :=
  if !selected.isEmpty && !selected.contains mb.name then st
  else
    let remoteKeys := mb.remote.map (fun x => x.1)
    let rows := all_mail st.tx mb.name
    let st := rows.foldl (step_local mb.name mb.isTrash trashDir remoteKeys) st
    let acc := mb.remote.foldl (step_remote mb.name mb.isTrash) ⟨st, [], [], []⟩
    let st := acc.st
    let st := if !acc.toFlag.isEmpty then
        { st with actions := st.actions ++ [SyncAction.UpdateFlags mb.name acc.toFlag] }
      else st
    let st := if !acc.toHardlink.isEmpty then
        { st with actions := st.actions ++ [SyncAction.Hardlink mb.name acc.toHardlink] }
      else st
    let st := if !acc.toFetch.isEmpty then
        { st with actions := st.actions ++ [SyncAction.Fetch mb.name acc.toFetch] }
      else st
    let removed := stale_rows st.tx mb.name remoteKeys
    if !removed.isEmpty then { st with toRemove := st.toRemove ++ [(mb.name, removed)] }
    else st

/-- The initial planner state over the transaction's working table. -/
def init_plan_st (work : Table) : PlanSt :=
  { actions := [], tx := work, printedTrashWarning := false, trashWarnings := 0
    toRemove := [] }

/-- compute_sync_actions lines 111-206: all mailbox passes followed by
the single trailing RemoveStale action. -/
def plan_all (inp : PlanIn) (work : Table) : PlanSt :=
  let st := inp.names.foldl (plan_mailbox inp.selected (trash_dir inp)) (init_plan_st work)
  { st with actions := st.actions ++ [SyncAction.RemoveStale st.toRemove] }

/-- The durable database: its committed mail table. -/
structure Db where
  committed : Table
deriving DecidableEq, Repr

/-- An open SQL transaction: its working table. -/
structure Tx where
  work : Table
deriving DecidableEq, Repr

/-- db.transaction(): the working table starts at the committed one. -/
def Db.transaction (db : Db) : Tx :=
  { work := db.committed }

/-- Transaction::commit would persist the working table. -/
def Tx.commit (_db : Db) (tx : Tx) : Db :=
  { committed := tx.work }

/-- Dropping a transaction without commit rolls it back: the committed
table is untouched (rusqlite's default drop behaviour). -/
def Tx.dropRollback (db : Db) (_tx : Tx) : Db :=
  db

/-- compute_sync_actions: plan inside a transaction over the committed
table; the transaction is dropped at the end of planning, never
committed.  Returns the action list and the database afterwards. -/
def compute_sync_actions (inp : PlanIn) (db : Db) : List SyncAction × Db :=
  let tx := db.transaction
  let st := plan_all inp tx.work
  let dbAfter := Tx.dropRollback db { work := st.tx }
  (st.actions, dbAfter)

/-! ## Thread builder (inboxid-browse/src/main.rs, show_listing) -/

/-- A graph vertex: a real mail (message id and date) or a pseudo mail
synthesized for a referenced-but-absent id (its date is epoch zero, as
new_pseudo sets). -/
inductive Vert where
  | real (mid : String) (date : Nat)
  | pseudo (subject : String)
deriving DecidableEq, Repr

/-- The date of a vertex (pseudo mails carry epoch zero). -/
def Vert.date : Vert → Nat
  | .real _ d => d
  | .pseudo _ => 0

/-- The reply graph: vertex arena (index = petgraph node index, in
insertion order) and directed parent-to-reply edges. -/
structure ThreadGraph where
  verts : List Vert
  edges : List (Nat × Nat)
deriving DecidableEq, Repr

/-- The threading-relevant fields of one parsed mail: its message id
(message_id() with fallback), its In-Reply-To header values, its date. -/
structure MailRec where
  mid : String
  irtHeaders : List String
  date : Nat
deriving DecidableEq, Repr

/-- Lookup in the mails_by_id map (modelled as an association list in
insertion order). -/
def lookup_id (byId : List (String × Nat)) (k : String) : Option Nat :=
  (byId.find? (fun p => p.1 == k)).map (fun p => p.2)

/-- show_listing lines 60-69: build mails_by_id; a duplicate message id
is a fatal data error (none). -/
def build_by_id : List MailRec → Nat → List (String × Nat) →
    Option (List (String × Nat))
  | [], _, acc => some acc
  | m :: rest, i, acc =>
    match lookup_id acc m.mid with
    | some _ => none
    | none => build_by_id rest (i + 1) (acc ++ [(m.mid, i)])

/-- Splitting at each single space character, via the character list
(the semantics of Rust str::split(' '): empty pieces are kept). -/
def split_spaces_aux : List Char → List Char → List String
  | [], acc => [⟨acc.reverse⟩]
  | c :: rest, acc =>
    if c = ' ' then ⟨acc.reverse⟩ :: split_spaces_aux rest []
    else split_spaces_aux rest (c :: acc)

/-- Model of Rust str::split(' '). -/
def split_spaces (s : String) : List String :=
  split_spaces_aux s.data []

/-- The space-delimited tokens of all In-Reply-To headers of a mail, in
header order. -/
def irt_tokens (m : MailRec) : List String :=
  (m.irtHeaders.map (fun v => split_spaces v)).flatten

/-- State of the edge-building loop: the vertex arena, the edges, and
the by-id map extended with synthesized pseudo mails. -/
structure BuildSt where
  verts : List Vert
  edges : List (Nat × Nat)
  byId : List (String × Nat)
deriving DecidableEq, Repr

/-- show_listing lines 93-109: add the In-Reply-To edges of the mail at
arena index mailIdx, synthesizing a pseudo vertex for every token that
resolves to no known id. -/
def add_mail_edges (mailIdx : Nat) (tokens : List String) (st : BuildSt) :
    BuildSt :=
  tokens.foldl (fun st mid =>
    match lookup_id st.byId mid with
    | some p => { st with edges := st.edges ++ [(p, mailIdx)] }
    | none =>
      let pidx := st.verts.length
      { verts := st.verts ++ [Vert.pseudo mid]
        edges := st.edges ++ [(pidx, mailIdx)]
        byId := st.byId ++ [(mid, pidx)] }) st

/-- show_listing lines 60-109: the whole graph construction; none on
duplicate message ids. -/
def build_graph (mails : List MailRec) : Option ThreadGraph :=
  match build_by_id mails 0 [] with
  | none => none
  | some byId =>
    let verts := mails.map (fun m => Vert.real m.mid m.date)
    let st := (mails.enum).foldl
      (fun st p => add_mail_edges p.1 (irt_tokens p.2) st)
      ⟨verts, [], byId⟩
    some ⟨st.verts, st.edges⟩

/-- The replies of a vertex: targets of its outgoing edges. -/
def children (g : ThreadGraph) (n : Nat) : List Nat :=
  (g.edges.filter (fun e => e.1 == n)).map (fun e => e.2)

/-- Out-degree of a vertex. -/
def child_deg (g : ThreadGraph) (n : Nat) : Nat :=
  (children g n).length

/-- In-degree of a vertex. -/
def in_deg (g : ThreadGraph) (n : Nat) : Nat :=
  (g.edges.filter (fun e => e.2 == n)).length

/-- The date stored at a vertex index. -/
def date_of (g : ThreadGraph) (n : Nat) : Nat :=
  match g.verts[n]? with
  | some v => v.date
  | none => 0

/-- The visited-set depth-first search of petgraph's Dfs, as a fueled
worklist: pop a node, skip it if visited, otherwise mark it and push
its children.  none when the fuel runs out. -/
def dfs_reach (g : ThreadGraph) : Nat → List Nat → List Nat → Option (List Nat)
  | 0, _, _ => none
  | _ + 1, [], visited => some visited
  | fuel + 1, n :: stack, visited =>
    if visited.contains n then dfs_reach g fuel stack visited
    else dfs_reach g fuel (children g n ++ stack) (visited ++ [n])

/-- A fuel bound sufficient for dfs_reach on any start vertex. -/
def dfs_fuel (g : ThreadGraph) : Nat :=
  g.verts.length * g.edges.length + 2

/-- The subtree-max-date sort key: the maximum date over the vertices
reached from n (n included). -/
def subtree_max (g : ThreadGraph) (n : Nat) : Nat :=
  match dfs_reach g (dfs_fuel g) [n] [] with
  | some vs => vs.foldl (fun m i => max m (date_of g i)) (date_of g n)
  | none => date_of g n

/-- Stable insertion into an ascending key-sorted list. -/
def insert_by_key (key : Nat → Nat) (x : Nat) : List Nat → List Nat
  | [] => [x]
  | y :: ys => if key x < key y then x :: y :: ys else y :: insert_by_key key x ys

/-- Stable sort by an ascending key (models sort_by_cached_key /
sort_unstable_by_key up to the order of equal keys, which the source
leaves unspecified). -/
def sort_by_key (key : Nat → Nat) (l : List Nat) : List Nat :=
  l.foldr (insert_by_key key) []

/-- show_listing lines 126-149 (print_thread): emit the vertex unless
already printed, mark it, then recurse into its replies sorted by
subtree max date.  The state is (mails_printed, emission order); none
when the fuel runs out. -/
def walk_node (g : ThreadGraph) : Nat → List Nat × List Nat → Nat →
    Option (List Nat × List Nat)
  | 0, _, _ => none
  | fuel + 1, s, n =>
    if s.1.contains n then some s
    else
      let visited := s.1 ++ [n]
      let emitted := s.2 ++ [n]
      let replies := sort_by_key (subtree_max g) (children g n)
      replies.foldlM (fun s r => walk_node g fuel s r) (visited, emitted)

/-- show_listing line 110: the roots are the vertices of in-degree
zero, in index order. -/
def roots_of (g : ThreadGraph) : List Nat :=
  (List.range g.verts.length).filter (fun n => in_deg g n == 0)

/-- show_listing lines 111-157: walk every root (sorted by subtree max
date) with a shared printed set, collecting the emission order. -/
def render_all (g : ThreadGraph) (fuel : Nat) : Option (List Nat) :=
  ((sort_by_key (subtree_max g) (roots_of g)).foldlM
    (fun s r => walk_node g fuel s r) (([] : List Nat), ([] : List Nat))).map
    (fun s => s.2)

/-- Well-formedness of the graph: every edge endpoint is a vertex. -/
def graph_wf (g : ThreadGraph) : Prop :=
  ∀ e ∈ g.edges, e.1 < g.verts.length ∧ e.2 < g.verts.length

/-- The number of vertices not yet visited. -/
def unvis (g : ThreadGraph) (visited : List Nat) : Nat :=
  ((List.range g.verts.length).filter (fun n => !visited.contains n)).length

/-- Potential of a dfs_reach state: stack size plus the out-degrees of
the unvisited vertices; it drops by one at every step. -/
def pot (g : ThreadGraph) (stack visited : List Nat) : Nat :=
  stack.length +
    Finset.sum (Finset.range g.verts.length \ visited.toFinset) (child_deg g)

end Inboxid

namespace Inboxid

/-! ## Theorems for the MaildirID packing (claim C2) -/

theorem store_i64_load_i64 (x : Nat) (hx : x < 2 ^ 64) :
    load_i64 (store_i64 x) = x := by
  unfold store_i64 load_i64
  have h64 : ((2 : Int) ^ 64) = 18446744073709551616 := by norm_num
  have h63 : (2 : Nat) ^ 63 = 9223372036854775808 := by norm_num
  have hx' : x < 18446744073709551616 := by
    have : (2 : Nat) ^ 64 = 18446744073709551616 := by norm_num
    omega
  split <;> rename_i h <;> rw [h64] <;> omega

theorem load_i64_store_i64 (y : Int) (h1 : -(2 ^ 63) ≤ y) (h2 : y < 2 ^ 63) :
    store_i64 (load_i64 y) = y := by
  unfold store_i64 load_i64
  have h64 : ((2 : Int) ^ 64) = 18446744073709551616 := by norm_num
  have h63i : ((2 : Int) ^ 63) = 9223372036854775808 := by norm_num
  have h63 : (2 : Nat) ^ 63 = 9223372036854775808 := by norm_num
  rw [h64] at *
  rw [h63i] at h1 h2
  split <;> rename_i h <;> omega

theorem to_u64_eq (v u : Nat) (hu : u < 2 ^ 32) :
    (MaildirID.new v u).to_u64 = v * 2 ^ 32 + u := by
  unfold MaildirID.to_u64 MaildirID.new
  simp only [Nat.shiftLeft_eq]
  rw [Nat.mul_comm (v) (2 ^ 32)]
  exact (Nat.mul_add_lt_is_or hu v).symm

theorem fromI64_to_i64 (v u : Nat) (hv : v < 2 ^ 32) (hu : u < 2 ^ 32) :
    MaildirID.fromI64 ((MaildirID.new v u).to_i64) = MaildirID.new v u := by
  unfold MaildirID.to_i64
  rw [to_u64_eq v u hu]
  have hlt : v * 2 ^ 32 + u < 2 ^ 64 := by
    have h1 : (2 : Nat) ^ 32 = 4294967296 := by norm_num
    have h2 : (2 : Nat) ^ 64 = 18446744073709551616 := by norm_num
    rw [h1] at hv hu ⊢
    rw [h2]
    nlinarith
  unfold MaildirID.fromI64
  rw [store_i64_load_i64 _ hlt]
  simp only [Nat.shiftLeft_eq, Nat.shiftRight_eq_div_pow]
  have h1 : (2 : Nat) ^ 32 = 4294967296 := by norm_num
  have h2 : (2 : Nat) ^ 64 = 18446744073709551616 := by norm_num
  rw [h1] at hv hu ⊢
  rw [h2]
  unfold MaildirID.new
  congr 1 <;> omega

/-- C2: the MaildirID packing is a bijection between (u32, u32) pairs,
u64 and i64: to_u64 places uid_validity in the high 32 bits and uid in
the low 32 bits, from(to_i64 id) = id, and store_i64 / load_i64 are
mutually inverse on the u64 and i64 ranges. -/
theorem maildirID_packing_bijection (v u x : Nat) (y : Int)
    (hv : v < 2 ^ 32) (hu : u < 2 ^ 32) (hx : x < 2 ^ 64)
    (hy1 : -(2 ^ 63) ≤ y) (hy2 : y < 2 ^ 63) :
    (MaildirID.new v u).to_u64 = v * 2 ^ 32 + u
    ∧ MaildirID.fromI64 ((MaildirID.new v u).to_i64) = MaildirID.new v u
    ∧ load_i64 (store_i64 x) = x
    ∧ store_i64 (load_i64 y) = y :=
  ⟨to_u64_eq v u hu, fromI64_to_i64 v u hv hu,
   store_i64_load_i64 x hx, load_i64_store_i64 y hy1 hy2⟩

theorem maildirID_packing_bijection_witness :
    (MaildirID.new 3 5).to_u64 = 3 * 2 ^ 32 + 5
    ∧ MaildirID.fromI64 ((MaildirID.new 3 5).to_i64) = MaildirID.new 3 5
    ∧ load_i64 (store_i64 7) = 7
    ∧ store_i64 (load_i64 (-9)) = -9 :=
  maildirID_packing_bijection 3 5 7 (-9) (by norm_num) (by norm_num)
    (by norm_num) (by norm_num) (by norm_num)

/-- C10: every pseudo mail is created with flag string "S", so
has_flag Seen yields true and has_flag2 of the unread marker yields
false, for every subject. -/
theorem new_pseudo_always_seen (subject : String) :
    (EasyMail.new_pseudo subject).has_flag IFlag.Seen = some true
    ∧ (EasyMail.new_pseudo subject).has_flag2 'U' = false := by
  constructor
  · show (imap_flag_to_maildir IFlag.Seen).map (fun c => str_contains "S" c) = some true
    decide
  · show str_contains "S" 'U' = false
    decide

/-! ## Theorems for the incremental fetcher (claims C1, C6, C7) -/

theorem fetch_store_loop_uidFile (mailbox : String) (v : Nat) (sf : Nat → Bool) :
    ∀ (msgs : List Msg) (largest : Nat) (md : MaildirSt) (table : List FetchRow),
      (fetch_store_loop mailbox v sf msgs largest md table).2.2.1.uidFile = md.uidFile := by
  intro msgs
  induction msgs with
  | nil => intro largest md table; rfl
  | cons m rest ih =>
    intro largest md table
    simp only [fetch_store_loop]
    split
    · exact ih _ _ _
    · split
      · rfl
      · exact ih _ _ _

theorem fetch_store_loop_largest (mailbox : String) (v : Nat) (sf : Nat → Bool) :
    ∀ (msgs : List Msg) (largest : Nat) (md : MaildirSt) (table : List FetchRow),
      (fetch_store_loop mailbox v sf msgs largest md table).1 = none →
      (fetch_store_loop mailbox v sf msgs largest md table).2.1
        = msgs.foldl (fun a m => max a m.uid) largest := by
  intro msgs
  induction msgs with
  | nil => intro largest md table _; rfl
  | cons m rest ih =>
    intro largest md table h
    rw [List.foldl_cons]
    simp only [fetch_store_loop] at h ⊢
    split at h <;> rename_i hex
    · rw [if_pos hex]
      exact ih _ _ _ h
    · rw [if_neg hex]
      split at h <;> rename_i hsf
      · simp at h
      · rw [if_neg hsf]
        exact ih _ _ _ h

theorem fetch_store_loop_files (mailbox : String) (v : Nat) (sf : Nat → Bool) :
    ∀ (msgs : List Msg) (largest : Nat) (md : MaildirSt) (table : List FetchRow),
      ∃ ext, (fetch_store_loop mailbox v sf msgs largest md table).2.2.1.files
        = md.files ++ ext := by
  intro msgs
  induction msgs with
  | nil => intro largest md table; exact ⟨[], by simp [fetch_store_loop]⟩
  | cons m rest ih =>
    intro largest md table
    simp only [fetch_store_loop]
    split
    · exact ih _ _ _
    · split
      · exact ⟨[], by simp⟩
      · obtain ⟨ext, hext⟩ := ih (max largest m.uid)
          { md with files := md.files ++ [(gen_id v m.uid, m.body)] }
          (table ++ [⟨mailbox, store_i64 (((v <<< 32) ||| m.uid) % 2 ^ 64), m.messageId⟩])
        exact ⟨[(gen_id v m.uid, m.body)] ++ ext, by rw [hext]; simp⟩

theorem file_exists_append (files ext : List (String × String)) (id : String)
    (h : file_exists files id = true) : file_exists (files ++ ext) id = true := by
  simp only [file_exists, List.any_append, Bool.or_eq_true]
  exact Or.inl h

theorem fetch_store_loop_stored (mailbox : String) (v : Nat) (sf : Nat → Bool) :
    ∀ (msgs : List Msg) (largest : Nat) (md : MaildirSt) (table : List FetchRow),
      (fetch_store_loop mailbox v sf msgs largest md table).1 = none →
      ∀ m ∈ msgs,
        mailbox_exists (fetch_store_loop mailbox v sf msgs largest md table).2.2.1
          (gen_id v m.uid) = true := by
  intro msgs
  induction msgs with
  | nil => intro largest md table _ m hm; cases hm
  | cons m0 rest ih =>
    intro largest md table h m hm
    simp only [fetch_store_loop] at h ⊢
    split at h <;> rename_i hex
    · rw [if_pos hex]
      rcases List.mem_cons.mp hm with rfl | hmr
      · obtain ⟨ext, hext⟩ := fetch_store_loop_files mailbox v sf rest
          (max largest m.uid) md table
        unfold mailbox_exists
        rw [hext]
        exact file_exists_append _ _ _ hex
      · exact ih _ _ _ h m hmr
    · rw [if_neg hex]
      split at h <;> rename_i hsf
      · simp at h
      · rw [if_neg hsf]
        rcases List.mem_cons.mp hm with rfl | hmr
        · obtain ⟨ext, hext⟩ := fetch_store_loop_files mailbox v sf rest
            (max largest m.uid)
            { md with files := md.files ++ [(gen_id v m.uid, m.body)] }
            (table ++ [⟨mailbox, store_i64 (((v <<< 32) ||| m.uid) % 2 ^ 64), m.messageId⟩])
          unfold mailbox_exists
          rw [hext]
          simp [file_exists, List.any_append]
        · exact ih _ _ _ h m hmr

theorem fetch_store_loop_abort (mailbox : String) (v : Nat) (sf : Nat → Bool) :
    ∀ (msgs : List Msg) (largest : Nat) (md : MaildirSt) (table : List FetchRow),
      (∀ x ∈ msgs, mailbox_exists md (gen_id v x.uid) = false) →
      ((msgs.map (fun m => gen_id v m.uid)).Nodup) →
      (∃ m ∈ msgs, sf m.uid = true) →
      (fetch_store_loop mailbox v sf msgs largest md table).1.isSome = true := by
  intro msgs
  induction msgs with
  | nil => intro largest md table _ _ hfail; simp at hfail
  | cons m0 rest ih =>
    intro largest md table hpre hnd hfail
    simp only [fetch_store_loop]
    have hex : mailbox_exists md (gen_id v m0.uid) = false :=
      hpre m0 (List.mem_cons_self _ _)
    rw [if_neg (by simp [hex])]
    by_cases hsf : sf m0.uid = true
    · rw [if_pos hsf]
      rfl
    · rw [if_neg hsf]
      obtain ⟨m, hm, hmsf⟩ := hfail
      rcases List.mem_cons.mp hm with rfl | hmr
      · exact absurd hmsf hsf
      · apply ih
        · intro x hx
          have h1 := hpre x (List.mem_cons_of_mem _ hx)
          have hne : gen_id v m0.uid ≠ gen_id v x.uid := by
            intro hcontra
            have hmem : gen_id v x.uid ∈ rest.map (fun m => gen_id v m.uid) :=
              List.mem_map.mpr ⟨x, hx, rfl⟩
            rw [← hcontra] at hmem
            exact (List.nodup_cons.mp hnd).1 hmem
          have hb : (gen_id v m0.uid == gen_id v x.uid) = false :=
            beq_eq_false_iff_ne.mpr hne
          simp only [mailbox_exists, file_exists] at h1 ⊢
          simp [List.any_append, h1, hb]
        · exact (List.nodup_cons.mp hnd).2
        · exact ⟨m, hmr, hmsf⟩

/-- C1: the fetch range decision.  With the stored pair defaulting to 0
when the file is missing or unparsable: a changed UIDVALIDITY gives the
full range "1:*"; an unchanged UIDVALIDITY with UIDNEXT different from
last UID plus one gives the range from last UID plus one; otherwise the
fetcher stores nothing, changes nothing, logs out and succeeds. -/
theorem fetch_range_decision (v next : Nat) (file : Option String)
    (mailbox : String) (msgs : List Msg) (md_files : List (String × String))
    (table : List FetchRow) (dbCols : Nat) (storeFail : Nat → Bool)
    (hpu : (parse_uid_file file).2 + 1 < 2 ^ 32) :
    (parse_uid_file none = (0, 0))
    ∧ (v ≠ (parse_uid_file file).1 →
        choose_fetch_range v next file = FetchRange.range 1 ∧
        (choose_fetch_range v next file).render = some "1:*")
    ∧ (v = (parse_uid_file file).1 → next ≠ (parse_uid_file file).2 + 1 →
        choose_fetch_range v next file
          = FetchRange.range ((parse_uid_file file).2 + 1))
    ∧ (v = (parse_uid_file file).1 → next = (parse_uid_file file).2 + 1 →
        fetch_inbox_top mailbox ⟨v, next, msgs⟩ ⟨md_files, file⟩ table dbCols storeFail
          = { errorMsg := none, maildir := ⟨md_files, file⟩,
              table := table, loggedOut := true }) := by
  have hmod : ((parse_uid_file file).2 + 1) % 2 ^ 32 = (parse_uid_file file).2 + 1 :=
    Nat.mod_eq_of_lt hpu
  refine ⟨rfl, ?_, ?_, ?_⟩
  · intro hne
    constructor
    · unfold choose_fetch_range
      rw [if_pos hne]
    · unfold choose_fetch_range
      rw [if_pos hne]
      rfl
  · intro heq hne
    unfold choose_fetch_range
    rw [if_neg (by simp [heq]), hmod, if_pos hne]
  · intro heq hnext
    have hc : choose_fetch_range v next file = FetchRange.noNewMail := by
      unfold choose_fetch_range
      rw [if_neg (by simp [heq]), hmod, if_neg (by simp [hnext])]
    simp only [fetch_inbox_top, hc]

theorem fetch_range_decision_witness :
    (parse_uid_file none = (0, 0))
    ∧ ((200 : Nat) ≠ (parse_uid_file none).1 →
        choose_fetch_range 200 7 none = FetchRange.range 1 ∧
        (choose_fetch_range 200 7 none).render = some "1:*")
    ∧ ((200 : Nat) = (parse_uid_file none).1 → (7 : Nat) ≠ (parse_uid_file none).2 + 1 →
        choose_fetch_range 200 7 none
          = FetchRange.range ((parse_uid_file none).2 + 1))
    ∧ ((200 : Nat) = (parse_uid_file none).1 → (7 : Nat) = (parse_uid_file none).2 + 1 →
        fetch_inbox_top "INBOX" ⟨200, 7, []⟩ ⟨[], none⟩ [] 4 (fun _ => false)
          = { errorMsg := none, maildir := ⟨[], none⟩,
              table := [], loggedOut := true }) :=
  fetch_range_decision 200 7 none "INBOX" [] [] [] 4 (fun _ => false) (by decide)

theorem fetch_inbox_top_noNewMail (mailbox : String) (server : ServerBox)
    (md : MaildirSt) (table : List FetchRow) (dbCols : Nat) (storeFail : Nat → Bool)
    (hc : choose_fetch_range server.uidValidity server.uidNext md.uidFile
      = FetchRange.noNewMail) :
    fetch_inbox_top mailbox server md table dbCols storeFail
      = { errorMsg := none, maildir := md, table := table, loggedOut := true } := by
  simp only [fetch_inbox_top, hc]

theorem fetch_inbox_top_range (mailbox : String) (server : ServerBox)
    (md : MaildirSt) (table : List FetchRow) (dbCols : Nat) (storeFail : Nat → Bool)
    (start : Nat)
    (hc : choose_fetch_range server.uidValidity server.uidNext md.uidFile
      = FetchRange.range start) :
    fetch_inbox_top mailbox server md table dbCols storeFail
      = if dbCols ≠ fetch_insert_values then
          { errorMsg := some "INSERT value count does not match mail table column count"
            maildir := md, table := table, loggedOut := false }
        else
          match fetch_store_loop mailbox server.uidValidity storeFail
              (server.msgs.filter (fun m => start ≤ m.uid))
              (parse_uid_file md.uidFile).2 md table with
          | (some e, _, md1, table1) =>
            { errorMsg := some e, maildir := md1, table := table1, loggedOut := false }
          | (none, largest, md1, table1) =>
            { errorMsg := none
              maildir := { md1 with uidFile := some (toString server.uidValidity ++ ","
                ++ toString (max ((server.uidNext + (2 ^ 32 - 1)) % 2 ^ 32) largest)) }
              table := table1, loggedOut := true } := by
  simp only [fetch_inbox_top, hc]

theorem fetched_msgs_of_range (server : ServerBox) (md : MaildirSt) (start : Nat)
    (hc : choose_fetch_range server.uidValidity server.uidNext md.uidFile
      = FetchRange.range start) :
    fetched_msgs server md = server.msgs.filter (fun m => start ≤ m.uid) := by
  simp only [fetched_msgs, hc]

theorem fetched_msgs_of_noNewMail (server : ServerBox) (md : MaildirSt)
    (hc : choose_fetch_range server.uidValidity server.uidNext md.uidFile
      = FetchRange.noNewMail) :
    fetched_msgs server md = [] := by
  simp only [fetched_msgs, hc]

/-- C6: the .uid watermark is written, with the content
"{uid_validity},{max(uid_next-1, largest_uid)}", only on a fully
successful run in which every fetched message is on disk; a run that
fails (a store failure, or the rejected three-value INSERT) returns an
error and leaves the .uid file unchanged; a store failure among the
fetched messages makes the run abort with an error. -/
theorem fetch_watermark (mailbox : String) (server : ServerBox) (md : MaildirSt)
    (table : List FetchRow) (dbCols : Nat) (storeFail : Nat → Bool) :
    (∀ e, (fetch_inbox_top mailbox server md table dbCols storeFail).errorMsg = some e →
      (fetch_inbox_top mailbox server md table dbCols storeFail).maildir.uidFile
        = md.uidFile)
    ∧ ((fetch_inbox_top mailbox server md table dbCols storeFail).errorMsg = none →
      ((fetch_inbox_top mailbox server md table dbCols storeFail).maildir = md
        ∧ (fetch_inbox_top mailbox server md table dbCols storeFail).table = table)
      ∨ ((fetch_inbox_top mailbox server md table dbCols storeFail).maildir.uidFile
          = some (toString server.uidValidity ++ ","
            ++ toString (max ((server.uidNext + (2 ^ 32 - 1)) % 2 ^ 32)
              ((fetched_msgs server md).foldl (fun a m => max a m.uid)
                (parse_uid_file md.uidFile).2)))
        ∧ ∀ m ∈ fetched_msgs server md,
            mailbox_exists (fetch_inbox_top mailbox server md table dbCols storeFail).maildir
              (gen_id server.uidValidity m.uid) = true))
    ∧ ((∀ x ∈ fetched_msgs server md,
          mailbox_exists md (gen_id server.uidValidity x.uid) = false) →
        ((fetched_msgs server md).map (fun m => gen_id server.uidValidity m.uid)).Nodup →
        (∃ m ∈ fetched_msgs server md, storeFail m.uid = true) →
        dbCols = fetch_insert_values →
        (fetch_inbox_top mailbox server md table dbCols storeFail).errorMsg.isSome = true
        ∧ (fetch_inbox_top mailbox server md table dbCols storeFail).maildir.uidFile
            = md.uidFile) := by
  refine ⟨?_, ?_, ?_⟩
  · intro e hsome
    cases hc : choose_fetch_range server.uidValidity server.uidNext md.uidFile with
    | noNewMail =>
      rw [fetch_inbox_top_noNewMail mailbox server md table dbCols storeFail hc] at hsome
      simp at hsome
    | range start =>
      rw [fetch_inbox_top_range mailbox server md table dbCols storeFail start hc] at hsome ⊢
      by_cases hcols : dbCols = fetch_insert_values
      · rw [if_neg (by simp [hcols])] at hsome ⊢
        have huid := fetch_store_loop_uidFile mailbox server.uidValidity storeFail
          (server.msgs.filter (fun m => start ≤ m.uid)) (parse_uid_file md.uidFile).2 md table
        rcases hloop : fetch_store_loop mailbox server.uidValidity storeFail
            (server.msgs.filter (fun m => start ≤ m.uid))
            (parse_uid_file md.uidFile).2 md table with ⟨err, largest, md1, table1⟩
        rw [hloop] at huid hsome
        cases err with
        | some e2 => exact huid
        | none => simp at hsome
      · rw [if_pos (by simp [hcols])]
  · intro hok
    cases hc : choose_fetch_range server.uidValidity server.uidNext md.uidFile with
    | noNewMail =>
      rw [fetch_inbox_top_noNewMail mailbox server md table dbCols storeFail hc]
      exact Or.inl ⟨rfl, rfl⟩
    | range start =>
      rw [fetch_inbox_top_range mailbox server md table dbCols storeFail start hc] at hok ⊢
      rw [fetched_msgs_of_range server md start hc]
      by_cases hcols : dbCols = fetch_insert_values
      · rw [if_neg (by simp [hcols])] at hok ⊢
        have huid := fetch_store_loop_uidFile mailbox server.uidValidity storeFail
          (server.msgs.filter (fun m => start ≤ m.uid)) (parse_uid_file md.uidFile).2 md table
        have hlar := fetch_store_loop_largest mailbox server.uidValidity storeFail
          (server.msgs.filter (fun m => start ≤ m.uid)) (parse_uid_file md.uidFile).2 md table
        have hsto := fetch_store_loop_stored mailbox server.uidValidity storeFail
          (server.msgs.filter (fun m => start ≤ m.uid)) (parse_uid_file md.uidFile).2 md table
        rcases hloop : fetch_store_loop mailbox server.uidValidity storeFail
            (server.msgs.filter (fun m => start ≤ m.uid))
            (parse_uid_file md.uidFile).2 md table with ⟨err, largest, md1, table1⟩
        rw [hloop] at huid hlar hsto hok
        cases err with
        | some e2 => simp at hok
        | none =>
          refine Or.inr ⟨?_, ?_⟩
          · have : largest = (server.msgs.filter (fun m => start ≤ m.uid)).foldl
                (fun a m => max a m.uid) (parse_uid_file md.uidFile).2 := hlar rfl
            rw [← this]
          · intro m hm
            have := hsto rfl m hm
            simpa [mailbox_exists] using this
      · rw [if_pos (by simp [hcols])] at hok
        simp at hok
  · intro hpre hnd hfail hcols
    cases hc : choose_fetch_range server.uidValidity server.uidNext md.uidFile with
    | noNewMail =>
      rw [fetched_msgs_of_noNewMail server md hc] at hfail
      simp at hfail
    | range start =>
      rw [fetched_msgs_of_range server md start hc] at hpre hnd hfail
      rw [fetch_inbox_top_range mailbox server md table dbCols storeFail start hc]
      rw [if_neg (by simp [hcols])]
      have habort := fetch_store_loop_abort mailbox server.uidValidity storeFail
        (server.msgs.filter (fun m => start ≤ m.uid)) (parse_uid_file md.uidFile).2 md table
        hpre hnd hfail
      have huid := fetch_store_loop_uidFile mailbox server.uidValidity storeFail
        (server.msgs.filter (fun m => start ≤ m.uid)) (parse_uid_file md.uidFile).2 md table
      rcases hloop : fetch_store_loop mailbox server.uidValidity storeFail
          (server.msgs.filter (fun m => start ≤ m.uid))
          (parse_uid_file md.uidFile).2 md table with ⟨err, largest, md1, table1⟩
      rw [hloop] at habort huid
      cases err with
      | some e2 => exact ⟨rfl, huid⟩
      | none => simp at habort

theorem fetch_watermark_witness :
    (fetch_inbox_top "INBOX" ⟨100, 4, [⟨2, "b", "<m>"⟩]⟩ ⟨[], none⟩ [] 3
      (fun u => u == 2)).errorMsg.isSome = true
    ∧ (fetch_inbox_top "INBOX" ⟨100, 4, [⟨2, "b", "<m>"⟩]⟩ ⟨[], none⟩ [] 3
      (fun u => u == 2)).maildir.uidFile = none :=
  (fetch_watermark "INBOX" ⟨100, 4, [⟨2, "b", "<m>"⟩]⟩ ⟨[], none⟩ [] 3
    (fun u => u == 2)).2.2 (by decide) (by decide) (by decide) rfl

/-- C7: the fresh-fetch scenario.  With no .uid file, UIDVALIDITY 100,
UIDNEXT 4 and messages 1..3, the fetcher as written fails: its INSERT
supplies three values while the mail table created by get_db has four
columns, so the prepared statement is rejected and the run aborts with
no file, no watermark and no index row written.  The second conjunct
shows that against a three-column table the run would produce exactly
the three files, the watermark "100,3" and the three index rows the
claim expects. -/
theorem fresh_fetch_scenario :
    (fetch_inbox_top "INBOX"
        ⟨100, 4, [⟨1, "body1", "<m1@x>"⟩, ⟨2, "body2", "<m2@x>"⟩, ⟨3, "body3", "<m3@x>"⟩]⟩
        ⟨[], none⟩ [] get_db_mail_columns (fun _ => false)
      = { errorMsg := some "INSERT value count does not match mail table column count"
          maildir := ⟨[], none⟩, table := [], loggedOut := false })
    ∧ (fetch_inbox_top "INBOX"
        ⟨100, 4, [⟨1, "body1", "<m1@x>"⟩, ⟨2, "body2", "<m2@x>"⟩, ⟨3, "body3", "<m3@x>"⟩]⟩
        ⟨[], none⟩ [] 3 (fun _ => false)
      = { errorMsg := none
          maildir := ⟨[("100_1", "body1"), ("100_2", "body2"), ("100_3", "body3")],
            some "100,3"⟩
          table := [⟨"INBOX", 429496729601, "<m1@x>"⟩, ⟨"INBOX", 429496729602, "<m2@x>"⟩,
            ⟨"INBOX", 429496729603, "<m3@x>"⟩]
          loggedOut := true }) := by
  constructor <;> decide

/-! ## Theorems for the sync planner (claims C3, C4, C5) -/

theorem foldl_preserve {α : Type _} {β : Type _} (P : α → Prop) (f : α → β → α)
    (hf : ∀ a b, P a → P (f a b)) :
    ∀ (l : List β) (a : α), P a → P (l.foldl f a) := by
  intro l
  induction l with
  | nil => intro a h; exact h
  | cons x xs ih => intro a h; exact ih _ (hf _ _ h)

theorem step_local_warn (mailbox : String) (isTrash : Bool) (trashDir : Option String)
    (remoteKeys : List String) (st : PlanSt) (row : Int × String × String)
    (h1 : st.trashWarnings ≤ 1)
    (h2 : st.printedTrashWarning = false → st.trashWarnings = 0) :
    (step_local mailbox isTrash trashDir remoteKeys st row).trashWarnings ≤ 1
    ∧ ((step_local mailbox isTrash trashDir remoteKeys st row).printedTrashWarning = false →
       (step_local mailbox isTrash trashDir remoteKeys st row).trashWarnings = 0) := by
  obtain ⟨uid, mid, flags⟩ := row
  unfold step_local
  dsimp only
  by_cases hT : (str_contains flags 'T' && !isTrash) = true
  · rw [if_pos hT]
    cases trashDir with
    | some d => exact ⟨h1, h2⟩
    | none =>
      dsimp only
      by_cases hp : (!st.printedTrashWarning) = true
      · rw [if_pos hp]
        have h0 : st.printedTrashWarning = false := by simpa using hp
        have hz := h2 h0
        exact ⟨by simp [hz], fun hcontra => by simp at hcontra⟩
      · rw [if_neg hp]
        exact ⟨h1, h2⟩
  · rw [if_neg hT]
    by_cases hE : str_contains flags 'E' = true
    · rw [if_pos hE]
      exact ⟨h1, h2⟩
    · rw [if_neg hE]
      exact ⟨h1, h2⟩

theorem step_remote_warn_fields (mailbox : String) (isTrash : Bool) (acc : RemoteSt)
    (entry : String × RemoteEntry) :
    ((step_remote mailbox isTrash acc entry).st.printedTrashWarning
        = acc.st.printedTrashWarning)
    ∧ ((step_remote mailbox isTrash acc entry).st.trashWarnings
        = acc.st.trashWarnings) := by
  obtain ⟨mid, e⟩ := entry
  unfold step_remote
  dsimp only
  cases hf : (have_mail acc.st.tx mid).find? (fun x => x.1 == mailbox && x.2.1 == e.full) with
  | some x =>
    exact ⟨rfl, rfl⟩
  | none =>
    cases hl : have_mail acc.st.tx mid with
    | nil =>
      dsimp only
      constructor <;> (split <;> rfl)
    | cons x xs =>
      exact ⟨rfl, rfl⟩

theorem plan_mailbox_warn (selected : List String) (trashDir : Option String)
    (st : PlanSt) (mb : MailboxIn)
    (h1 : st.trashWarnings ≤ 1)
    (h2 : st.printedTrashWarning = false → st.trashWarnings = 0) :
    (plan_mailbox selected trashDir st mb).trashWarnings ≤ 1
    ∧ ((plan_mailbox selected trashDir st mb).printedTrashWarning = false →
       (plan_mailbox selected trashDir st mb).trashWarnings = 0) := by
  unfold plan_mailbox
  split
  · exact ⟨h1, h2⟩
  · have h3 := foldl_preserve
      (fun s : PlanSt => s.trashWarnings ≤ 1 ∧
        (s.printedTrashWarning = false → s.trashWarnings = 0))
      (step_local mb.name mb.isTrash trashDir (mb.remote.map (fun x => x.1)))
      (fun a b hp => step_local_warn mb.name mb.isTrash trashDir
        (mb.remote.map (fun x => x.1)) a b hp.1 hp.2)
      (all_mail st.tx mb.name) st ⟨h1, h2⟩
    have h4 := foldl_preserve
      (fun acc : RemoteSt => acc.st.trashWarnings ≤ 1 ∧
        (acc.st.printedTrashWarning = false → acc.st.trashWarnings = 0))
      (step_remote mb.name mb.isTrash)
      (fun a b hp => by
        have hf := step_remote_warn_fields mb.name mb.isTrash a b
        refine ⟨?_, ?_⟩
        · rw [hf.2]; exact hp.1
        · intro hh
          rw [hf.2]
          exact hp.2 (by rw [← hf.1]; exact hh))
      mb.remote
      ⟨(all_mail st.tx mb.name).foldl
        (step_local mb.name mb.isTrash trashDir (mb.remote.map (fun x => x.1))) st,
        [], [], []⟩ h3
    dsimp only
    repeat' split
    all_goals exact ⟨h4.1, h4.2⟩

/-- C3: a local index row of a non-trash mailbox whose flag string
contains the trash marker: with a trash folder present the planner
emits TrashRemote when the message id is in the remote listing and
TrashLocal otherwise, deleting the row from the transaction's table;
with no trash folder it emits nothing and changes nothing for that row,
and a whole planning run prints at most one trash warning. -/
theorem trash_row_planning (mailbox : String) (trashDir : Option String)
    (remoteKeys : List String) (st : PlanSt) (uid : Int) (mid flags : String)
    (hT : str_contains flags 'T' = true) :
    (∀ d, trashDir = some d →
      step_local mailbox false trashDir remoteKeys st (uid, mid, flags)
        = { st with
            actions := st.actions ++
              [if remoteKeys.contains mid then
                 SyncAction.TrashRemote mailbox (MaildirID.fromI64 uid)
               else SyncAction.TrashLocal mailbox (MaildirID.fromI64 uid)]
            tx := delete_mail st.tx mailbox (MaildirID.fromI64 uid) })
    ∧ (trashDir = none →
        (step_local mailbox false trashDir remoteKeys st (uid, mid, flags)).actions
          = st.actions
        ∧ (step_local mailbox false trashDir remoteKeys st (uid, mid, flags)).tx
          = st.tx)
    ∧ (∀ (inp : PlanIn) (work : Table), (plan_all inp work).trashWarnings ≤ 1) := by
  refine ⟨?_, ?_, ?_⟩
  · intro d hd
    subst hd
    unfold step_local
    dsimp only
    rw [if_pos (show (str_contains flags 'T' && !false) = true by simp [hT])]
  · intro hd
    subst hd
    unfold step_local
    dsimp only
    rw [if_pos (show (str_contains flags 'T' && !false) = true by simp [hT])]
    by_cases hp : (!st.printedTrashWarning) = true
    · rw [if_pos hp]
      exact ⟨rfl, rfl⟩
    · rw [if_neg hp]
      exact ⟨rfl, rfl⟩
  · intro inp work
    have h := foldl_preserve
      (fun s : PlanSt => s.trashWarnings ≤ 1 ∧
        (s.printedTrashWarning = false → s.trashWarnings = 0))
      (plan_mailbox inp.selected (trash_dir inp))
      (fun a b hp => plan_mailbox_warn inp.selected (trash_dir inp) a b hp.1 hp.2)
      inp.names (init_plan_st work) ⟨by simp [init_plan_st], by simp [init_plan_st]⟩
    unfold plan_all
    exact h.1

theorem trash_row_planning_witness :
    step_local "INBOX" false (some "Trash") [] (init_plan_st []) (429496729601, "<x>", "TS")
      = { init_plan_st [] with
          actions := [SyncAction.TrashLocal "INBOX" (MaildirID.fromI64 429496729601)]
          tx := delete_mail [] "INBOX" (MaildirID.fromI64 429496729601) } :=
  (trash_row_planning "INBOX" (some "Trash") [] (init_plan_st []) 429496729601 "<x>" "TS"
    (by decide)).1 "Trash" rfl

/-- C4 amended: a remote message contributes an UpdateFlags tuple
exactly when an index row exists at that exact (mailbox, uid) with the
same message id — regardless of the Seen states; the Seen comparison is
performed only by the executor when it applies UpdateFlags. -/
theorem update_flags_entry_iff (mailbox : String) (isTrash : Bool) (acc : RemoteSt)
    (mid : String) (e : RemoteEntry) :
    ((step_remote mailbox isTrash acc (mid, e)).toFlag ≠ acc.toFlag) ↔
      ∃ x ∈ have_mail acc.st.tx mid, x.1 = mailbox ∧ x.2.1 = e.full := by
  unfold step_remote
  dsimp only
  cases hf : (have_mail acc.st.tx mid).find? (fun x => x.1 == mailbox && x.2.1 == e.full) with
  | some x =>
    constructor
    · intro _
      have hmem := List.mem_of_find?_eq_some hf
      have hp := List.find?_some hf
      simp only [Bool.and_eq_true, beq_iff_eq] at hp
      exact ⟨x, hmem, hp.1, hp.2⟩
    · intro _
      intro hcontra
      have := congrArg List.length hcontra
      simp at this
  | none =>
    cases hl : have_mail acc.st.tx mid with
    | nil =>
      constructor
      · intro hne
        exfalso
        apply hne
        dsimp only
        split <;> rfl
      · rintro ⟨x, hx, _⟩
        simp at hx
    | cons y ys =>
      constructor
      · intro hne
        exfalso
        exact hne rfl
      · rintro ⟨x, hx, hx1, hx2⟩
        exfalso
        have := List.find?_eq_none.mp hf x (hl ▸ hx)
        simp [hx1, hx2] at this

set_option maxRecDepth 4000 in
/-- C4 counterexample: one remote message whose matching local row at
the exact (mailbox, uid) already agrees on Seen (both Seen) still
contributes an UpdateFlags entry, refuting the claim that agreement on
Seen suppresses the entry. -/
theorem update_flags_counterexample :
    (plan_all
        ⟨[⟨"INBOX", false, [("<x@example>", ⟨1, 1, MaildirID.new 1 1, [IFlag.Seen]⟩)]⟩], []⟩
        [⟨"INBOX", 4294967297, "<x@example>", "S"⟩]).actions
      = [SyncAction.UpdateFlags "INBOX" [(MaildirID.new 1 1, [IFlag.Seen], "S")],
         SyncAction.RemoveStale []]
    ∧ str_contains "S" 'S' = true
    ∧ [IFlag.Seen].contains IFlag.Seen = true := by
  refine ⟨by decide, by decide, by decide⟩

set_option maxRecDepth 4000 in
/-- C5: planning has no durable effect on the index.  The transaction
is dropped without commit, so the committed table after
compute_sync_actions equals the one before; the second conjunct shows
on a concrete input that the transaction's working table did change
during planning (a trashed row is deleted in-transaction), so the
equality is due to the rollback, not to planning being read-only. -/
theorem planning_rolls_back :
    (∀ (inp : PlanIn) (db : Db), (compute_sync_actions inp db).2 = db)
    ∧ (plan_all
        ⟨[⟨"INBOX", false, []⟩, ⟨"Trash", true, []⟩], []⟩
        [⟨"INBOX", 4294967297, "<y@example>", "ST"⟩]).tx
      ≠ [⟨"INBOX", 4294967297, "<y@example>", "ST"⟩] := by
  constructor
  · intro inp db
    rfl
  · decide

/-! ## Theorems for the thread builder (claims C8, C9) -/

theorem foldlM_option_inv {α β : Type _} (f : β → α → Option β) (P : β → Prop)
    (hf : ∀ s x r, f s x = some r → P s → P r) :
    ∀ (l : List α) (s r : β), l.foldlM f s = some r → P s → P r := by
  intro l
  induction l with
  | nil =>
    intro s r h hs
    simp [List.foldlM] at h
    exact h ▸ hs
  | cons x xs ih =>
    intro s r h hs
    rw [List.foldlM_cons] at h
    cases hfx : f s x with
    | none => rw [hfx] at h; simp at h
    | some s1 =>
      rw [hfx] at h
      simp only [Option.bind_eq_bind, Option.some_bind] at h
      exact ih s1 r h (hf s x s1 hfx hs)

theorem walk_node_nodup (g : ThreadGraph) :
    ∀ (fuel : Nat) (s : List Nat × List Nat) (n : Nat) (r : List Nat × List Nat),
      walk_node g fuel s n = some r →
      (s.2.Nodup ∧ ∀ x ∈ s.2, x ∈ s.1) →
      (r.2.Nodup ∧ ∀ x ∈ r.2, x ∈ r.1) := by
  intro fuel
  induction fuel with
  | zero =>
    intro s n r h _
    simp [walk_node] at h
  | succ fuel ih =>
    intro s n r h hs
    simp only [walk_node] at h
    split at h
    · rename_i hv
      injection h with h
      exact h ▸ hs
    · rename_i hv
      refine foldlM_option_inv (fun s r => walk_node g fuel s r)
        (fun s => s.2.Nodup ∧ ∀ x ∈ s.2, x ∈ s.1)
        (fun a x b hb ha => ih a x b hb ha) _ _ _ h ?_
      have hn1 : n ∉ s.1 := by
        intro hmem
        exact hv (List.elem_eq_true_of_mem hmem)
      have hn2 : n ∉ s.2 := fun hmem => hn1 (hs.2 n hmem)
      refine ⟨?_, ?_⟩
      · rw [List.nodup_append]
        refine ⟨hs.1, by simp, ?_⟩
        intro x hx hx2
        simp at hx2
        exact hn2 (hx2 ▸ hx)
      · intro x hx
        rcases List.mem_append.mp hx with h1 | h2
        · exact List.mem_append_left _ (hs.2 x h1)
        · exact List.mem_append_right _ h2

/-- C8 amended: for every input list of mails accepted by the builder
(pairwise distinct message ids) the rendering walk emits each vertex —
real or pseudo — at most once: its emission order has no duplicates.
(Exactly-once fails for real mails on reference cycles, which have no
in-degree-zero root; see the counterexample.) -/
theorem render_emits_at_most_once (mails : List MailRec) (g : ThreadGraph)
    (fuel : Nat) (out : List Nat) (_hg : build_graph mails = some g)
    (hr : render_all g fuel = some out) : out.Nodup := by
  unfold render_all at hr
  cases hfold : (sort_by_key (subtree_max g) (roots_of g)).foldlM
      (fun s r => walk_node g fuel s r) (([] : List Nat), ([] : List Nat)) with
  | none => rw [hfold] at hr; simp at hr
  | some p =>
    rw [hfold] at hr
    simp only [Option.map] at hr
    have hinv := foldlM_option_inv (fun s r => walk_node g fuel s r)
      (fun s : List Nat × List Nat => s.2.Nodup ∧ ∀ x ∈ s.2, x ∈ s.1)
      (fun a x b hb ha => walk_node_nodup g fuel a x b hb ha)
      _ _ _ hfold ⟨List.nodup_nil, by simp⟩
    injection hr with hr
    exact hr ▸ hinv.1

theorem render_emits_at_most_once_witness :
    build_graph [⟨"<a>", [], 5⟩] = some ⟨[Vert.real "<a>" 5], []⟩
    ∧ render_all ⟨[Vert.real "<a>" 5], []⟩ 2 = some [0]
    ∧ List.Nodup [0] :=
  ⟨by decide, by decide,
   render_emits_at_most_once [⟨"<a>", [], 5⟩] ⟨[Vert.real "<a>" 5], []⟩ 2 [0]
     (by decide) (by decide)⟩

/-- C8 counterexample: two real mails referencing each other form a
cycle with no in-degree-zero vertex, so the rendering walk emits
neither of them — a real mail can be emitted zero times, refuting
"every real mail exactly once". -/
theorem render_cycle_counterexample :
    build_graph [⟨"<a>", ["<b>"], 0⟩, ⟨"<b>", ["<a>"], 0⟩]
      = some ⟨[Vert.real "<a>" 0, Vert.real "<b>" 0], [(1, 0), (0, 1)]⟩
    ∧ render_all ⟨[Vert.real "<a>" 0, Vert.real "<b>" 0], [(1, 0), (0, 1)]⟩ 3
      = some [] := by
  constructor
  · decide
  · decide

theorem children_lt (g : ThreadGraph) (hwf : graph_wf g) {n m : Nat}
    (h : m ∈ children g n) : m < g.verts.length := by
  unfold children at h
  obtain ⟨e, he, rfl⟩ := List.mem_map.mp h
  exact (hwf e (List.mem_of_mem_filter he)).2

theorem mem_insert_by_key {key : Nat → Nat} {x a : Nat} :
    ∀ {l : List Nat}, x ∈ insert_by_key key a l ↔ x = a ∨ x ∈ l := by
  intro l
  induction l with
  | nil => simp [insert_by_key]
  | cons y ys ih =>
    simp only [insert_by_key]
    split
    · simp only [List.mem_cons]
    · simp only [List.mem_cons, ih]
      tauto

theorem mem_sort_by_key {key : Nat → Nat} {x : Nat} :
    ∀ {l : List Nat}, x ∈ sort_by_key key l ↔ x ∈ l := by
  intro l
  induction l with
  | nil => simp [sort_by_key]
  | cons y ys ih =>
    show x ∈ insert_by_key key y (sort_by_key key ys) ↔ _
    rw [mem_insert_by_key]
    simp only [List.mem_cons, ih]

theorem unvis_le_length (g : ThreadGraph) (v : List Nat) :
    unvis g v ≤ g.verts.length := by
  unfold unvis
  calc ((List.range g.verts.length).filter (fun n => !v.contains n)).length
      ≤ (List.range g.verts.length).length := List.length_filter_le _ _
    _ = g.verts.length := List.length_range _

theorem unvis_le (g : ThreadGraph) {v w : List Nat} (h : ∀ x ∈ v, x ∈ w) :
    unvis g w ≤ unvis g v := by
  unfold unvis
  rw [← List.countP_eq_length_filter, ← List.countP_eq_length_filter]
  apply List.countP_mono_left
  intro a _ ha
  by_contra hc
  have h1 : v.contains a = true := by
    revert hc
    cases hav : v.contains a <;> simp
  have h3 : a ∈ w := h a (List.mem_of_elem_eq_true h1)
  have h4 : w.contains a = true := List.elem_eq_true_of_mem h3
  rw [h4] at ha
  simp at ha

theorem length_filter_ne_lt {a : Nat} :
    ∀ {l : List Nat}, a ∈ l → (l.filter (fun x => !(x == a))).length < l.length := by
  intro l
  induction l with
  | nil => intro h; cases h
  | cons x xs ih =>
    intro h
    by_cases hx : (x == a) = true
    · rw [List.filter_cons]
      rw [if_neg (by simp [hx])]
      have := List.length_filter_le (fun x => !(x == a)) xs
      simp only [List.length_cons]
      omega
    · have hxa : x ≠ a := by simpa using hx
      have ha : a ∈ xs := by
        rcases List.mem_cons.mp h with rfl | h2
        · exact absurd rfl hxa
        · exact h2
      rw [List.filter_cons]
      rw [if_pos (by simp [hx])]
      simp only [List.length_cons]
      exact Nat.succ_lt_succ (ih ha)

theorem unvis_lt (g : ThreadGraph) {v : List Nat} {n : Nat}
    (hn : n < g.verts.length) (hv : v.contains n = false) :
    unvis g (v ++ [n]) < unvis g v := by
  unfold unvis
  have hEq : ∀ m ∈ List.range g.verts.length,
      (!(v ++ [n]).contains m) = ((!(m == n)) && (!v.contains m)) := by
    intro m _
    have hsplit : (v ++ [n]).contains m = (v.contains m || (m == n)) := by
      cases hmv : v.contains m
      · cases hmn : (m == n)
        · simp only [Bool.or_self]
          cases hc : (v ++ [n]).contains m
          · rfl
          · exfalso
            have := List.mem_of_elem_eq_true hc
            rcases List.mem_append.mp this with h1 | h2
            · have hc1 : v.contains m = true := List.elem_eq_true_of_mem h1
              rw [hc1] at hmv
              simp at hmv
            · simp at h2
              rw [h2] at hmn
              simp at hmn
        · have hm : m = n := by simpa using hmn
          subst hm
          simp only [Bool.or_true]
          exact List.elem_eq_true_of_mem (List.mem_append_right _ (by simp))
      · simp only [Bool.true_or]
        exact List.elem_eq_true_of_mem
          (List.mem_append_left _ (List.mem_of_elem_eq_true hmv))
    rw [hsplit]
    cases v.contains m <;> cases (m == n) <;> simp
  rw [List.filter_congr hEq]
  rw [← List.filter_filter]
  apply length_filter_ne_lt
  rw [List.mem_filter]
  refine ⟨List.mem_range.mpr hn, ?_⟩
  have hnv : n ∉ v := fun hmem => by
    have hc : v.contains n = true := List.elem_eq_true_of_mem hmem
    rw [hc] at hv
    simp at hv
  simp [hv, hnv]

theorem pot_cons (g : ThreadGraph) (n : Nat) (rest v : List Nat) :
    pot g (n :: rest) v = pot g rest v + 1 := by
  unfold pot
  simp only [List.length_cons]
  omega

theorem pot_step (g : ThreadGraph) {n : Nat} {rest v : List Nat}
    (hn : n < g.verts.length) (hv : v.contains n = false) :
    pot g (children g n ++ rest) (v ++ [n]) + 1 = pot g (n :: rest) v := by
  have hnv : n ∉ v := fun hmem => by
    have hc : v.contains n = true := List.elem_eq_true_of_mem hmem
    rw [hc] at hv
    simp at hv
  have hset : Finset.range g.verts.length \ (v ++ [n]).toFinset
      = (Finset.range g.verts.length \ v.toFinset).erase n := by
    ext m
    simp only [Finset.mem_sdiff, Finset.mem_erase, List.mem_toFinset,
      List.mem_append, List.mem_singleton, Finset.mem_range]
    tauto
  have hmem : n ∈ Finset.range g.verts.length \ v.toFinset := by
    simp only [Finset.mem_sdiff, Finset.mem_range, List.mem_toFinset]
    exact ⟨hn, hnv⟩
  have hsum : (children g n).length
      + ((Finset.range g.verts.length \ v.toFinset).erase n).sum (child_deg g)
      = (Finset.range g.verts.length \ v.toFinset).sum (child_deg g) :=
    Finset.add_sum_erase _ (child_deg g) hmem
  unfold pot
  rw [hset]
  simp only [List.length_append, List.length_cons]
  omega

theorem sum_child_deg_le (g : ThreadGraph) :
    Finset.sum (Finset.range g.verts.length) (child_deg g)
      ≤ g.verts.length * g.edges.length := by
  have hb : ∀ x ∈ Finset.range g.verts.length, child_deg g x ≤ g.edges.length := by
    intro x _
    unfold child_deg children
    rw [List.length_map]
    exact List.length_filter_le _ _
  have h := Finset.sum_le_card_nsmul (Finset.range g.verts.length) (child_deg g)
    g.edges.length hb
  rw [Finset.card_range, smul_eq_mul] at h
  exact h

theorem pot_init_le (g : ThreadGraph) (n : Nat) :
    pot g [n] [] + 1 ≤ dfs_fuel g := by
  unfold pot dfs_fuel
  rw [show ([] : List Nat).toFinset = ∅ from rfl, Finset.sdiff_empty]
  have h := sum_child_deg_le g
  simp only [List.length_singleton]
  omega

theorem dfs_reach_fuel_eq (g : ThreadGraph) (hwf : graph_wf g) :
    ∀ (f1 : Nat) (f2 : Nat) (stack visited : List Nat),
      (∀ n ∈ stack, n < g.verts.length) →
      pot g stack visited + 1 ≤ f1 → pot g stack visited + 1 ≤ f2 →
      dfs_reach g f1 stack visited = dfs_reach g f2 stack visited
      ∧ (dfs_reach g f1 stack visited).isSome = true := by
  intro f1
  induction f1 with
  | zero =>
    intro f2 stack visited _ h1 _
    omega
  | succ a ih =>
    intro f2 stack visited hstk h1 h2
    obtain ⟨b, rfl⟩ : ∃ b, f2 = b + 1 := ⟨f2 - 1, by omega⟩
    cases stack with
    | nil => exact ⟨rfl, rfl⟩
    | cons n rest =>
      have hpc := pot_cons g n rest visited
      simp only [dfs_reach]
      by_cases hv : visited.contains n = true
      · rw [if_pos hv, if_pos hv]
        have hrest : pot g rest visited + 1 ≤ a := by omega
        have hrest2 : pot g rest visited + 1 ≤ b := by omega
        exact ih b rest visited
          (fun x hx => hstk x (List.mem_cons_of_mem _ hx)) hrest hrest2
      · rw [if_neg hv, if_neg hv]
        have hvf : visited.contains n = false := by
          revert hv
          cases visited.contains n <;> simp
        have hn : n < g.verts.length := hstk n (List.mem_cons_self _ _)
        have hps := @pot_step g n rest visited hn hvf
        have hb1 : pot g (children g n ++ rest) (visited ++ [n]) + 1 ≤ a := by omega
        have hb2 : pot g (children g n ++ rest) (visited ++ [n]) + 1 ≤ b := by omega
        refine ih b (children g n ++ rest) (visited ++ [n]) ?_ hb1 hb2
        intro x hx
        rcases List.mem_append.mp hx with h1 | h2
        · exact children_lt g hwf h1
        · exact hstk x (List.mem_cons_of_mem _ h2)

theorem walk_node_fuel (g : ThreadGraph) (hwf : graph_wf g) :
    ∀ (f1 : Nat) (f2 : Nat) (s : List Nat × List Nat) (n : Nat),
      n < g.verts.length →
      (∀ x ∈ s.1, x < g.verts.length) →
      unvis g s.1 + 1 ≤ f1 → unvis g s.1 + 1 ≤ f2 →
      walk_node g f1 s n = walk_node g f2 s n
      ∧ ∃ r, walk_node g f1 s n = some r
        ∧ (∀ x ∈ r.1, x < g.verts.length)
        ∧ (∀ x ∈ s.1, x ∈ r.1)
        ∧ unvis g r.1 ≤ unvis g s.1 := by
  intro f1
  induction f1 using Nat.strong_induction_on with
  | _ f1 ih =>
    intro f2 s n hn hb h1 h2
    obtain ⟨a, rfl⟩ : ∃ a, f1 = a + 1 := ⟨f1 - 1, by omega⟩
    obtain ⟨b, rfl⟩ : ∃ b, f2 = b + 1 := ⟨f2 - 1, by omega⟩
    by_cases hv : s.1.contains n = true
    · have e1 : walk_node g (a + 1) s n = some s := by
        simp only [walk_node]
        rw [if_pos hv]
      have e2 : walk_node g (b + 1) s n = some s := by
        simp only [walk_node]
        rw [if_pos hv]
      rw [e1, e2]
      exact ⟨rfl, s, rfl, hb, fun x hx => hx, le_refl _⟩
    · have hvf : s.1.contains n = false := by
        revert hv
        cases s.1.contains n <;> simp
      have e1 : walk_node g (a + 1) s n
          = (sort_by_key (subtree_max g) (children g n)).foldlM
              (fun s r => walk_node g a s r) (s.1 ++ [n], s.2 ++ [n]) := by
        simp only [walk_node]
        rw [if_neg hv]
      have e2 : walk_node g (b + 1) s n
          = (sort_by_key (subtree_max g) (children g n)).foldlM
              (fun s r => walk_node g b s r) (s.1 ++ [n], s.2 ++ [n]) := by
        simp only [walk_node]
        rw [if_neg hv]
      rw [e1, e2]
      have hstep : unvis g (s.1 ++ [n]) < unvis g s.1 := unvis_lt g hn hvf
      have husa : unvis g s.1 ≤ a := by omega
      have husb : unvis g s.1 ≤ b := by omega
      have hbase : ∀ x ∈ s.1 ++ [n], x < g.verts.length := by
        intro x hx
        rcases List.mem_append.mp hx with hx1 | hx2
        · exact hb x hx1
        · simp at hx2
          exact hx2 ▸ hn
      have hfold : ∀ (rs : List Nat), (∀ r ∈ rs, r < g.verts.length) →
          ∀ (st : List Nat × List Nat), (∀ x ∈ st.1, x < g.verts.length) →
          (∀ x ∈ s.1 ++ [n], x ∈ st.1) →
          rs.foldlM (fun s r => walk_node g a s r) st
            = rs.foldlM (fun s r => walk_node g b s r) st
          ∧ ∃ r, rs.foldlM (fun s r => walk_node g a s r) st = some r
            ∧ (∀ x ∈ r.1, x < g.verts.length)
            ∧ (∀ x ∈ st.1, x ∈ r.1)
            ∧ unvis g r.1 ≤ unvis g st.1 := by
        intro rs
        induction rs with
        | nil =>
          intro _ st hstB hstS
          exact ⟨rfl, st, by simp [List.foldlM], hstB, fun x hx => hx, le_refl _⟩
        | cons r0 rs ihr =>
          intro hrsB st hstB hstS
          have hsub : unvis g st.1 ≤ unvis g (s.1 ++ [n]) := unvis_le g hstS
          have hua : unvis g st.1 + 1 ≤ a := by omega
          have hub : unvis g st.1 + 1 ≤ b := by omega
          obtain ⟨heq1, r1, hr1, hr1B, hr1S, hr1U⟩ :=
            ih a (by omega) b st r0 (hrsB r0 (List.mem_cons_self _ _)) hstB hua hub
          rw [List.foldlM_cons, List.foldlM_cons, ← heq1, hr1]
          simp only [Option.bind_eq_bind, Option.some_bind]
          obtain ⟨heq2, r2, hr2, hr2B, hr2S, hr2U⟩ :=
            ihr (fun x hx => hrsB x (List.mem_cons_of_mem _ hx)) r1 hr1B
              (fun x hx => hr1S x (hstS x hx))
          refine ⟨heq2, r2, hr2, hr2B, ?_, le_trans hr2U hr1U⟩
          intro x hx
          exact hr2S x (hr1S x hx)
      obtain ⟨heq, r, hr, hrB, hrS, hrU⟩ := hfold
        (sort_by_key (subtree_max g) (children g n))
        (fun x hx => children_lt g hwf (mem_sort_by_key.mp hx))
        (s.1 ++ [n], s.2 ++ [n]) hbase (fun x hx => hx)
      refine ⟨heq, r, hr, hrB, ?_, le_trans hrU (le_of_lt hstep)⟩
      intro x hx
      exact hrS x (List.mem_append_left _ hx)

/-- C9: the thread builder terminates on every input, cycles included:
the subtree-max-date search reaches its fixpoint within the fuel bound
dfs_fuel (more fuel changes nothing and the search completes), and the
depth-first rendering walk completes within fuel verts.length + 1
(more fuel changes nothing), because both carry visited sets. -/
theorem thread_builder_terminates (g : ThreadGraph) (hwf : graph_wf g) :
    (∀ n, n < g.verts.length → ∀ fuel, dfs_fuel g ≤ fuel →
      dfs_reach g fuel [n] [] = dfs_reach g (dfs_fuel g) [n] []
      ∧ (dfs_reach g fuel [n] []).isSome = true)
    ∧ (∀ fuel, g.verts.length + 1 ≤ fuel →
      render_all g fuel = render_all g (g.verts.length + 1)
      ∧ (render_all g fuel).isSome = true) := by
  constructor
  · intro n hn fuel hf
    have hinit := pot_init_le g n
    exact dfs_reach_fuel_eq g hwf fuel (dfs_fuel g) [n] []
      (by intro m hm; simp at hm; exact hm ▸ hn) (by omega) hinit
  · intro fuel hf
    have hroots : ∀ r ∈ sort_by_key (subtree_max g) (roots_of g),
        r < g.verts.length := by
      intro r hr
      have hmem := mem_sort_by_key.mp hr
      unfold roots_of at hmem
      exact List.mem_range.mp (List.mem_of_mem_filter hmem)
    have hfold : ∀ (rs : List Nat), (∀ r ∈ rs, r < g.verts.length) →
        ∀ (st : List Nat × List Nat), (∀ x ∈ st.1, x < g.verts.length) →
        rs.foldlM (fun s r => walk_node g fuel s r) st
          = rs.foldlM (fun s r => walk_node g (g.verts.length + 1) s r) st
        ∧ ∃ r, rs.foldlM (fun s r => walk_node g fuel s r) st = some r
          ∧ (∀ x ∈ r.1, x < g.verts.length) := by
      intro rs
      induction rs with
      | nil =>
        intro _ st hstB
        exact ⟨rfl, st, by simp [List.foldlM], hstB⟩
      | cons r0 rs ihr =>
        intro hrsB st hstB
        have h1 : unvis g st.1 + 1 ≤ fuel := by
          have := unvis_le_length g st.1
          omega
        have h2 : unvis g st.1 + 1 ≤ g.verts.length + 1 := by
          have := unvis_le_length g st.1
          omega
        obtain ⟨heq1, r1, hr1, hr1B, _, _⟩ :=
          walk_node_fuel g hwf fuel (g.verts.length + 1) st r0
            (hrsB r0 (List.mem_cons_self _ _)) hstB h1 h2
        rw [List.foldlM_cons, List.foldlM_cons, ← heq1, hr1]
        simp only [Option.bind_eq_bind, Option.some_bind]
        exact ihr (fun x hx => hrsB x (List.mem_cons_of_mem _ hx)) r1 hr1B
    obtain ⟨heq, r, hr, _⟩ := hfold (sort_by_key (subtree_max g) (roots_of g))
      hroots ([], []) (by simp)
    constructor
    · unfold render_all
      rw [heq]
    · unfold render_all
      rw [hr]
      rfl

theorem thread_builder_terminates_witness :
    graph_wf (⟨[Vert.real "<a>" 0, Vert.real "<b>" 0], [(1, 0), (0, 1)]⟩ : ThreadGraph)
    ∧ (dfs_reach ⟨[Vert.real "<a>" 0, Vert.real "<b>" 0], [(1, 0), (0, 1)]⟩
        (dfs_fuel ⟨[Vert.real "<a>" 0, Vert.real "<b>" 0], [(1, 0), (0, 1)]⟩)
        [0] []).isSome = true
    ∧ (render_all ⟨[Vert.real "<a>" 0, Vert.real "<b>" 0], [(1, 0), (0, 1)]⟩
        3).isSome = true := by
  have hwf : graph_wf (⟨[Vert.real "<a>" 0, Vert.real "<b>" 0],
      [(1, 0), (0, 1)]⟩ : ThreadGraph) := by
    unfold graph_wf
    decide
  refine ⟨hwf, ?_, ?_⟩
  · exact ((thread_builder_terminates _ hwf).1 0 (by decide) _ (le_refl _)).2
  · exact ((thread_builder_terminates _ hwf).2 3 (by decide)).2
